import Mathlib

/-!
Verification development for the audio-speed-manipulator core
(time-stretch engine + WAV container encoder, `src/app/page.tsx`).

The JavaScript floating-point arithmetic of the source is embedded into
the real numbers `ℝ`; machine integers and byte stores are embedded into
`ℕ` / `ℤ` with explicit `% 256` / `% 65536` wrapping, matching the
`DataView.setUint16/setUint32/setInt16` semantics of the source.
-/

namespace AudioSpeed

/-- Decoded or produced audio: per-channel float samples, a sample rate,
and the frame count (`AudioBuffer.length` in the source).  In a browser
`AudioBuffer` every channel has exactly `length` samples; `Valid` states
that invariant for this model. -/
structure PcmBuffer where
  channels : List (List ℝ)
  sampleRate : ℕ
  length : ℕ

/-- Validity invariant of a decoded buffer: every channel holds exactly
`length` samples (always true of a browser `AudioBuffer`). -/
def PcmBuffer.Valid (b : PcmBuffer) : Prop :=
  ∀ ch ∈ b.channels, ch.length = b.length

/-- Little-endian bytes of a 16-bit unsigned store
(`DataView.setUint16(_, v, true)`): the value is wrapped modulo 2^16. -/
def u16le (v : ℕ) : List ℕ := [v % 256, v / 256 % 256]

/-- Little-endian bytes of a 32-bit unsigned store
(`DataView.setUint32(_, v, true)`): the value is wrapped modulo 2^32. -/
def u32le (v : ℕ) : List ℕ :=
  [v % 256, v / 256 % 256, v / 2 ^ 16 % 256, v / 2 ^ 24 % 256]

/-- Little-endian bytes of a 16-bit signed store
(`DataView.setInt16(_, v, true)`): two's-complement wrap modulo 2^16. -/
def int16le (v : ℤ) : List ℕ := u16le (v % 65536).toNat

/-- Truncation toward zero, the integer conversion JavaScript applies to
the float argument of `DataView.setInt16`. -/
noncomputable def jsTrunc (x : ℝ) : ℤ := if x < 0 then ⌈x⌉ else ⌊x⌋

/-- Clamp of a float sample to [-1, 1]: `Math.max(-1, Math.min(1, s))`
(source line 175). -/
noncomputable def clamp1 (s : ℝ) : ℝ := max (-1) (min 1 s)

/-- Per-sample 16-bit conversion of `encodeWAV` (source lines 175-176):
clamp to [-1, 1], scale by 0x8000 for negative and 0x7fff for
non-negative values, truncate toward zero. -/
noncomputable def floatTo16 (s : ℝ) : ℤ :=
  jsTrunc (if clamp1 s < 0 then clamp1 s * 32768 else clamp1 s * 32767)

/-- The fixed 44-byte WAV header written by `encodeWAV`
(source lines 157-169); ASCII tags are spelled as byte literals
(`RIFF`, `WAVE`, `fmt `, `data`). -/
def wavHeader (numChannels sampleRate len : ℕ) : List ℕ :=
  let byteRate := sampleRate * numChannels * 16 / 8
  let blockAlign := numChannels * 16 / 8
  let dataSize := len * numChannels * 2
  [82, 73, 70, 70] ++ u32le (36 + dataSize) ++
  [87, 65, 86, 69] ++
  [102, 109, 116, 32] ++ u32le 16 ++ u16le 1 ++ u16le numChannels ++
  u32le sampleRate ++ u32le byteRate ++ u16le blockAlign ++ u16le 16 ++
  [100, 97, 116, 97] ++ u32le dataSize

/-- The interleaved PCM payload of `encodeWAV` (source lines 172-179):
the nested frame/channel loops advancing a write offset are modelled as
nested left folds appending the two bytes of each converted sample. -/
noncomputable def wavData (buf : PcmBuffer) : List ℕ :=
  (List.range buf.length).foldl (fun acc i =>
    (List.range buf.channels.length).foldl (fun acc2 channel =>
      acc2 ++ int16le (floatTo16 ((buf.channels.getD channel []).getD i 0))) acc) []

/-- The byte stream produced by `encodeWAV` (source lines 143-182):
44-byte header followed by the interleaved 16-bit payload. -/
noncomputable def encodeWAV (buf : PcmBuffer) : List ℕ :=
  wavHeader buf.channels.length buf.sampleRate buf.length ++ wavData buf

/-- JavaScript `Math.round`: round half toward positive infinity. -/
noncomputable def jsRound (x : ℝ) : ℤ := ⌊x + 1 / 2⌋

/-- JavaScript `Math.atan2 y x` (angle of the point `(x, y)`). -/
noncomputable def atan2 (y x : ℝ) : ℝ :=
  if 0 < x then Real.arctan (y / x)
  else if x < 0 then
    (if 0 ≤ y then Real.arctan (y / x) + Real.pi
     else Real.arctan (y / x) - Real.pi)
  else
    (if 0 < y then Real.pi / 2 else if y < 0 then -(Real.pi / 2) else 0)

/-- Mutable phase-tracking state of the stretch loop (source lines
90-92), threaded explicitly through the per-sample computation. -/
structure PVState where
  lastPhase : ℝ
  sumPhase : ℝ
  expectedPhase : ℝ

/-- Initial phase state: `lastPhase`, `sumPhase` and `expectedPhase`
all start at 0 (source lines 90-92). -/
def PVState.init : PVState := ⟨0, 0, 0⟩

/-- The phase estimate of one loop iteration:
`phase = Math.atan2(inputData[i], lastPhase)` (source line 101). -/
noncomputable def phaseOf (st : PVState) (x : ℝ) : ℝ := atan2 x st.lastPhase

/-- Phase unwrapping of one loop iteration (source line 102):
`phase + 2π * Math.round((expectedPhase - phase) / (2π))`. -/
noncomputable def unwrappedPhaseOf (st : PVState) (x : ℝ) : ℝ :=
  phaseOf st x +
    2 * Real.pi * jsRound ((st.expectedPhase - phaseOf st x) / (2 * Real.pi))

/-- Instantaneous frequency of one loop iteration (source line 103):
`(unwrappedPhase - lastPhase) / omega`.  Faithful for `omega ≠ 0`,
which holds for every positive sample rate; the special-value behaviour
of JavaScript at a zero denominator (Infinity/NaN, not 0) is modelled
separately by `jsInstantFreq` below. -/
noncomputable def instantFreqOf (omega : ℝ) (st : PVState) (x : ℝ) : ℝ :=
  (unwrappedPhaseOf st x - st.lastPhase) / omega

/-- One iteration of the per-sample loop (source lines 99-111): returns
the updated phase state and the emitted output sample
`Math.cos(sumPhase)`. -/
noncomputable def processSample (omega rate : ℝ) (st : PVState) (x : ℝ) :
    PVState × ℝ :=
  let phase := phaseOf st x
  let sumPhase := st.sumPhase + instantFreqOf omega st x * omega * rate
  (⟨phase, sumPhase, st.expectedPhase + omega * rate⟩, Real.cos sumPhase)

/-- Runs the per-sample loop over a list of input samples, threading the
phase state and collecting the emitted output samples. -/
noncomputable def runLoop (omega rate : ℝ) : PVState → List ℝ → List ℝ
  | _, [] => []
  | st, x :: xs =>
    (processSample omega rate st x).2 ::
      runLoop omega rate (processSample omega rate st x).1 xs

/-- Number of output frames allocated by `handleDownload` (source line
77): `Math.ceil(audioBuffer.length / playbackRate)`.  Faithful for
`rate ≠ 0`; at rate 0 JavaScript computes `Infinity` rather than an
integer, which is modelled separately by `jsContextLength` below. -/
def outputLength (n : ℕ) (rate : ℚ) : ℤ := ⌈(n : ℚ) / rate⌉

/-- Stretches one channel: the script processor receives the source
samples in order (zeros past the channel's end) and the per-sample loop
emits one output sample per output frame, starting from the zero phase
state, with `omega = 2π * 2048 / sampleRate` (source lines 86-93). -/
noncomputable def stretchChannel (sampleRate : ℕ) (rate : ℚ) (outLen : ℕ)
    (samples : List ℝ) : List ℝ :=
  runLoop (2 * Real.pi * 2048 / (sampleRate : ℝ)) (rate : ℝ) PVState.init
    ((List.range outLen).map fun i => samples.getD i 0)

/-- The stretch operation of `handleDownload` (source lines 66-120): an
output buffer with `Math.ceil(length / rate)` frames at the input
sample rate, each channel produced by the per-sample loop.  The source
performs no validation of `rate`.  For positive rates — the only rates
the theorems below evaluate `stretch` at — the allocated length
`⌈length / rate⌉` is non-negative and `.toNat` is exact; at
non-positive rates the source hands `Infinity` or a negative value to
the external `OfflineAudioContext` constructor instead (see
`jsContextLength` below).  (The source wires a mono script processor
into the offline graph; channels are modelled independently per §4.2
of the spec, which coincides with the source graph for the
single-channel buffers used in the concrete theorems below.) -/
noncomputable def stretch (pcm : PcmBuffer) (rate : ℚ) : PcmBuffer :=
  { channels := pcm.channels.map
      (stretchChannel pcm.sampleRate rate (outputLength pcm.length rate).toNat)
    sampleRate := pcm.sampleRate
    length := (outputLength pcm.length rate).toNat }

/-! ## JavaScript special-value semantics

The real-number embedding above is exact wherever the source's
arithmetic stays finite.  The numeric edge cases of claims C7 and C9
(division by a zero rate or a zero `omega`) leave the finite range, so
for them the relevant expressions are re-embedded with the IEEE-754
special values of JavaScript numbers made explicit: finite values are
kept exact as reals (the traced computations are exact), and `-0` is
merged with `0`, which none of the traced paths distinguishes. -/

/-- A JavaScript number: a finite real, one of the two infinities, or
NaN. -/
inductive JSNum where
  | fin (x : ℝ)
  | posInf
  | negInf
  | nan

/-- JavaScript addition on special values. -/
noncomputable def JSNum.add : JSNum → JSNum → JSNum
  | .nan, _ => .nan
  | _, .nan => .nan
  | .posInf, .negInf => .nan
  | .negInf, .posInf => .nan
  | .posInf, _ => .posInf
  | _, .posInf => .posInf
  | .negInf, _ => .negInf
  | _, .negInf => .negInf
  | .fin x, .fin y => .fin (x + y)

/-- JavaScript subtraction on special values. -/
noncomputable def JSNum.sub : JSNum → JSNum → JSNum
  | .nan, _ => .nan
  | _, .nan => .nan
  | .posInf, .posInf => .nan
  | .negInf, .negInf => .nan
  | .posInf, _ => .posInf
  | .negInf, _ => .negInf
  | .fin _, .posInf => .negInf
  | .fin _, .negInf => .posInf
  | .fin x, .fin y => .fin (x - y)

/-- JavaScript multiplication on special values: an infinity times zero
is NaN. -/
noncomputable def JSNum.mul : JSNum → JSNum → JSNum
  | .nan, _ => .nan
  | _, .nan => .nan
  | .posInf, .posInf => .posInf
  | .posInf, .negInf => .negInf
  | .negInf, .posInf => .negInf
  | .negInf, .negInf => .posInf
  | .posInf, .fin x => if x = 0 then .nan else if 0 < x then .posInf else .negInf
  | .fin x, .posInf => if x = 0 then .nan else if 0 < x then .posInf else .negInf
  | .negInf, .fin x => if x = 0 then .nan else if 0 < x then .negInf else .posInf
  | .fin x, .negInf => if x = 0 then .nan else if 0 < x then .negInf else .posInf
  | .fin x, .fin y => .fin (x * y)

/-- JavaScript division on special values: a nonzero finite value over
zero is a signed infinity, zero over zero is NaN. -/
noncomputable def JSNum.div : JSNum → JSNum → JSNum
  | .nan, _ => .nan
  | _, .nan => .nan
  | .posInf, .posInf => .nan
  | .posInf, .negInf => .nan
  | .negInf, .posInf => .nan
  | .negInf, .negInf => .nan
  | .posInf, .fin y => if 0 ≤ y then .posInf else .negInf
  | .negInf, .fin y => if 0 ≤ y then .negInf else .posInf
  | .fin _, .posInf => .fin 0
  | .fin _, .negInf => .fin 0
  | .fin x, .fin y =>
    if y = 0 then
      (if x = 0 then .nan else if 0 < x then .posInf else .negInf)
    else .fin (x / y)

/-- JavaScript `Math.cos`: NaN on every non-finite argument. -/
noncomputable def JSNum.cos : JSNum → JSNum
  | .fin x => .fin (Real.cos x)
  | _ => .nan

/-- JavaScript `Math.round` on special values. -/
noncomputable def JSNum.round : JSNum → JSNum
  | .fin x => .fin ((⌊x + 1 / 2⌋ : ℤ) : ℝ)
  | .posInf => .posInf
  | .negInf => .negInf
  | .nan => .nan

/-- JavaScript `Math.ceil` on special values. -/
noncomputable def JSNum.ceil : JSNum → JSNum
  | .fin x => .fin ((⌈x⌉ : ℤ) : ℝ)
  | .posInf => .posInf
  | .negInf => .negInf
  | .nan => .nan

/-- JavaScript `Math.atan2` on special values (finite cases delegate to
the real `atan2` above). -/
noncomputable def JSNum.atan2 : JSNum → JSNum → JSNum
  | .nan, _ => .nan
  | _, .nan => .nan
  | .posInf, .posInf => .fin (Real.pi / 4)
  | .posInf, .negInf => .fin (3 * Real.pi / 4)
  | .negInf, .posInf => .fin (-(Real.pi / 4))
  | .negInf, .negInf => .fin (-(3 * Real.pi / 4))
  | .posInf, .fin _ => .fin (Real.pi / 2)
  | .negInf, .fin _ => .fin (-(Real.pi / 2))
  | .fin _, .posInf => .fin 0
  | .fin y, .negInf => if 0 ≤ y then .fin Real.pi else .fin (-Real.pi)
  | .fin y, .fin x => .fin (AudioSpeed.atan2 y x)

/-- The constant `2 * Math.PI` of source lines 102. -/
noncomputable def jsTwoPi : JSNum := JSNum.mul (.fin 2) (.fin Real.pi)

/-- Source line 101 under JavaScript number semantics:
`Math.atan2(inputData[i], lastPhase)`. -/
noncomputable def jsPhase (lastPhase x : JSNum) : JSNum := JSNum.atan2 x lastPhase

/-- Source line 102 under JavaScript number semantics:
`phase + 2π * Math.round((expectedPhase - phase) / (2π))`. -/
noncomputable def jsUnwrapped (lastPhase expectedPhase x : JSNum) : JSNum :=
  JSNum.add (jsPhase lastPhase x)
    (JSNum.mul jsTwoPi
      (JSNum.round (JSNum.div
        (JSNum.sub expectedPhase (jsPhase lastPhase x)) jsTwoPi)))

/-- Source line 103 under JavaScript number semantics:
`(unwrappedPhase - lastPhase) / omega`. -/
noncomputable def jsInstantFreq (omega lastPhase expectedPhase x : JSNum) :
    JSNum :=
  JSNum.div (JSNum.sub (jsUnwrapped lastPhase expectedPhase x) lastPhase) omega

/-- Source lines 106-107 under JavaScript number semantics: the output
sample `Math.cos(sumPhase + instantFreq * omega * playbackRate)`. -/
noncomputable def jsOutputSample
    (omega rate lastPhase sumPhase expectedPhase x : JSNum) : JSNum :=
  JSNum.cos (JSNum.add sumPhase
    (JSNum.mul (JSNum.mul (jsInstantFreq omega lastPhase expectedPhase x)
      omega) rate))

/-- Source line 77 under JavaScript number semantics: the offline
context length `Math.ceil(audioBuffer.length / playbackRate)`. -/
noncomputable def jsContextLength (len : ℕ) (rate : JSNum) : JSNum :=
  JSNum.ceil (JSNum.div (JSNum.fin (len : ℝ)) rate)

/-! ## Helper lemmas -/

theorem runLoop_length (omega rate : ℝ) (st : PVState) (l : List ℝ) :
    (runLoop omega rate st l).length = l.length := by
  induction l generalizing st with
  | nil => rfl
  | cons x xs ih => simp [runLoop, ih]

theorem stretchChannel_length (sampleRate : ℕ) (rate : ℚ) (outLen : ℕ)
    (samples : List ℝ) :
    (stretchChannel sampleRate rate outLen samples).length = outLen := by
  simp [stretchChannel, runLoop_length]

theorem stretch_getD_length (pcm : PcmBuffer) (rate : ℚ) (c : ℕ)
    (hc : c < pcm.channels.length) :
    ((stretch pcm rate).channels.getD c []).length =
      (outputLength pcm.length rate).toNat := by
  have hc2 : c < (stretch pcm rate).channels.length := by
    simpa [stretch] using hc
  rw [List.getD_eq_getElem _ _ hc2]
  simp [stretch, stretchChannel_length]

/-! ## Claim C1 -/

/-- Claim C1: for every valid input buffer and every valid (positive)
rate, each output channel of `stretch pcm rate` has length
`ceil(channelLength / rate)` — the length `Math.ceil(length / rate)`
that `handleDownload` passes to the offline context (source line 77). -/
theorem stretch_output_channel_length (pcm : PcmBuffer) (rate : ℚ)
    (hrate : 0 < rate) (hval : pcm.Valid) (c : ℕ)
    (hc : c < pcm.channels.length) :
    (((stretch pcm rate).channels.getD c []).length : ℤ) =
      ⌈(((pcm.channels.getD c []).length : ℚ)) / rate⌉ := by
  have hlen : (pcm.channels.getD c []).length = pcm.length := by
    rw [List.getD_eq_getElem _ _ hc]
    exact hval _ (List.getElem_mem hc)
  have hnonneg : (0 : ℤ) ≤ outputLength pcm.length rate := by
    have : (0 : ℚ) ≤ (pcm.length : ℚ) / rate :=
      div_nonneg (by positivity) (le_of_lt hrate)
    exact Int.ceil_nonneg this
  rw [stretch_getD_length pcm rate c hc, hlen]
  rw [Int.toNat_of_nonneg hnonneg]
  rfl

/-- Witness for C1 at a concrete input: a valid one-channel buffer of
two samples stretched at rate 2 has output channel length ⌈2 / 2⌉ = 1. -/
theorem stretch_output_channel_length_witness :
    (0 : ℚ) < 2 ∧
      (((stretch ⟨[[0, 0]], 8000, 2⟩ 2).channels.getD 0 []).length : ℤ) =
        ⌈(((PcmBuffer.mk [[0, 0]] 8000 2).channels.getD 0 []).length : ℚ) / 2⌉ := by
  refine ⟨by norm_num, ?_⟩
  exact stretch_output_channel_length ⟨[[0, 0]], 8000, 2⟩ 2 (by norm_num)
    (by intro ch hch; simp at hch; simp [hch]) 0 (by simp)

/-! ## Claim C2 -/

/-- Helper: the first output sample emitted on a positive first input
sample is `cos(π/2 · rate)` — the loop re-synthesizes, it does not copy.
With the zero initial state, `atan2 y 0 = π/2`, the unwrap correction is
`round(-1/4) = 0`, and the synthesis phase advances to `π/2 · rate`. -/
theorem processSample_init_eval (omega rate y : ℝ) (homega : omega ≠ 0)
    (hy : 0 < y) :
    (processSample omega rate PVState.init y).2 =
      Real.cos (Real.pi / 2 * rate) := by
  have hphase : phaseOf PVState.init y = Real.pi / 2 := by
    simp [phaseOf, PVState.init, atan2, hy]
  have harg : (PVState.init.expectedPhase - phaseOf PVState.init y) /
      (2 * Real.pi) = -(1 / 4 : ℝ) := by
    have hpi := Real.pi_ne_zero
    rw [hphase]
    show ((0 : ℝ) - Real.pi / 2) / (2 * Real.pi) = -(1 / 4)
    field_simp
    ring
  have hround : jsRound (-(1 / 4 : ℝ)) = 0 := by
    have : (-(1 / 4 : ℝ) + 1 / 2) = 1 / 4 := by norm_num
    rw [jsRound, this, Int.floor_eq_zero_iff]
    constructor <;> norm_num
  have hunwrap : unwrappedPhaseOf PVState.init y = Real.pi / 2 := by
    rw [unwrappedPhaseOf, harg, hround, hphase]
    simp
  have hfreq : instantFreqOf omega PVState.init y * omega = Real.pi / 2 := by
    rw [instantFreqOf, hunwrap]
    show (Real.pi / 2 - (0 : ℝ)) / omega * omega = Real.pi / 2
    rw [sub_zero]
    exact div_mul_cancel₀ _ homega
  have hout : (processSample omega rate PVState.init y).2 =
      Real.cos (PVState.init.sumPhase +
        instantFreqOf omega PVState.init y * omega * rate) := rfl
  rw [hout, hfreq]
  show Real.cos ((0 : ℝ) + Real.pi / 2 * rate) = _
  rw [zero_add]

/-- Counterexample to claim C2: at rate 1 the stretch loop is not a
no-op.  For the one-sample input channel `[0.5]` the output sample is
`cos(π/2) = 0`, a deviation of half of full scale from the input sample
`0.5` — not a negligible numerical error. -/
theorem stretch_rate_one_not_identity :
    ((stretch ⟨[[(1 : ℝ) / 2]], 8000, 1⟩ 1).channels.getD 0 []).getD 0 0 = 0 ∧
      ((PcmBuffer.mk [[(1 : ℝ) / 2]] 8000 1).channels.getD 0 []).getD 0 0 =
        1 / 2 := by
  constructor
  · have hL : (outputLength (1 : ℕ) 1).toNat = 1 := by
      norm_num [outputLength]
    have hch : (stretch ⟨[[(1 : ℝ) / 2]], 8000, 1⟩ 1).channels =
        [stretchChannel 8000 1 1 [(1 : ℝ) / 2]] := by
      simp [stretch, hL]
    rw [hch]
    have hin : (List.range 1).map
        (fun i => ([(1 : ℝ) / 2]).getD i 0) = [(1 : ℝ) / 2] := by
      rw [show List.range 1 = [0] from rfl, List.map_singleton,
        List.getD_cons_zero]
    have homega : (2 * Real.pi * 2048 / ((8000 : ℕ) : ℝ)) ≠ 0 := by
      positivity
    have hrun : stretchChannel 8000 1 1 [(1 : ℝ) / 2] =
        [(processSample (2 * Real.pi * 2048 / ((8000 : ℕ) : ℝ))
            ((1 : ℚ) : ℝ) PVState.init ((1 : ℝ) / 2)).2] := by
      rw [stretchChannel, hin]
      rfl
    rw [hrun]
    have := processSample_init_eval (2 * Real.pi * 2048 / ((8000 : ℕ) : ℝ))
      ((1 : ℚ) : ℝ) ((1 : ℝ) / 2) homega (by norm_num)
    simp only [List.getD_cons_zero, this]
    norm_num [Real.cos_pi_div_two]
  · simp

/-- Claim C2 (amended): at rate 1 the stretch output has exactly the
input's length on every channel (the content is re-synthesized, not
copied — see the counterexample). -/
theorem stretch_rate_one_length (pcm : PcmBuffer) (hval : pcm.Valid)
    (c : ℕ) (hc : c < pcm.channels.length) :
    ((stretch pcm 1).channels.getD c []).length =
      (pcm.channels.getD c []).length := by
  have hlen : (pcm.channels.getD c []).length = pcm.length := by
    rw [List.getD_eq_getElem _ _ hc]
    exact hval _ (List.getElem_mem hc)
  rw [stretch_getD_length pcm 1 c hc, hlen]
  simp [outputLength]

/-- Witness for the amended C2 at a concrete input: a valid one-channel
buffer of two samples keeps length 2 at rate 1. -/
theorem stretch_rate_one_length_witness :
    ((stretch ⟨[[0, 0]], 44100, 2⟩ 1).channels.getD 0 []).length =
      ((PcmBuffer.mk [[0, 0]] 44100 2).channels.getD 0 []).length := by
  exact stretch_rate_one_length ⟨[[0, 0]], 44100, 2⟩
    (by intro ch hch; simp at hch; simp [hch]) 0 (by simp)

/-! ## Claims C9 and C10: engine output invariants -/

/-- Helper: every sample the loop emits (0 beyond the list's end) lies
in [-1, 1], because each emitted sample is a cosine. -/
theorem runLoop_getD_bounds (omega rate : ℝ) (st : PVState) (l : List ℝ)
    (i : ℕ) :
    -1 ≤ (runLoop omega rate st l).getD i 0 ∧
      (runLoop omega rate st l).getD i 0 ≤ 1 := by
  induction l generalizing st i with
  | nil =>
    rw [show runLoop omega rate st [] = [] from rfl]
    constructor <;> norm_num
  | cons x xs ih =>
    cases i with
    | zero =>
      have h0 : (runLoop omega rate st (x :: xs)).getD 0 0 =
          Real.cos (st.sumPhase + instantFreqOf omega st x * omega * rate) :=
        rfl
      rw [h0]
      exact ⟨Real.neg_one_le_cos _, Real.cos_le_one _⟩
    | succ j =>
      have hs : (runLoop omega rate st (x :: xs)).getD (j + 1) 0 =
          (runLoop omega rate (processSample omega rate st x).1 xs).getD j 0 :=
        rfl
      rw [hs]
      exact ih _ _

/-- Helper: every sample of every channel of a stretched buffer (0 for
out-of-range indices) lies in [-1, 1]. -/
theorem stretch_sample_bounds (pcm : PcmBuffer) (rate : ℚ) (c i : ℕ) :
    -1 ≤ ((stretch pcm rate).channels.getD c []).getD i 0 ∧
      ((stretch pcm rate).channels.getD c []).getD i 0 ≤ 1 := by
  by_cases hc : c < (stretch pcm rate).channels.length
  · rw [List.getD_eq_getElem _ _ hc]
    have hc0 : c < pcm.channels.length := by simpa [stretch] using hc
    have hmap : (stretch pcm rate).channels[c] =
        stretchChannel pcm.sampleRate rate
          (outputLength pcm.length rate).toNat pcm.channels[c] := by
      simp [stretch]
    rw [hmap, stretchChannel]
    exact runLoop_getD_bounds _ _ _ _ i
  · rw [List.getD_eq_default _ _ (le_of_not_lt hc)]
    rw [show ([] : List ℝ).getD i 0 = 0 from rfl]
    constructor <;> norm_num

/-- Helper: `Math.atan2 y 0 = π / 2` for positive `y`. -/
theorem atan2_zero_right {y : ℝ} (hy : 0 < y) : atan2 y 0 = Real.pi / 2 := by
  simp [atan2, hy]

/-- Claim C9 is a code bug: line 103 contains no zero-denominator
handling.  Evaluated under JavaScript number semantics at the failing
input — `omega = 0`, the zero initial phase state, input sample 0.5,
rate 1 — the instantaneous frequency term is `+Infinity`, not 0, and
the output sample is `cos(0 + Infinity·0·1) = cos(NaN) = NaN`: a
non-finite value reaches the output, contrary to the claim (and to §7
of the spec, which requires the term be treated as 0.0). -/
theorem jsLoop_zero_denominator_nan :
    jsInstantFreq (JSNum.fin 0) (JSNum.fin 0) (JSNum.fin 0)
        (JSNum.fin (1 / 2)) = JSNum.posInf ∧
      jsOutputSample (JSNum.fin 0) (JSNum.fin 1) (JSNum.fin 0) (JSNum.fin 0)
        (JSNum.fin 0) (JSNum.fin (1 / 2)) = JSNum.nan := by
  have hpi := Real.pi_ne_zero
  have h2pi : (2 : ℝ) * Real.pi ≠ 0 := by positivity
  have hphase : jsPhase (JSNum.fin 0) (JSNum.fin (1 / 2)) =
      JSNum.fin (Real.pi / 2) := by
    show JSNum.fin (atan2 (1 / 2) 0) = _
    rw [atan2_zero_right (by norm_num)]
  have htwoPi : jsTwoPi = JSNum.fin (2 * Real.pi) := rfl
  have hsub1 : JSNum.sub (JSNum.fin 0) (JSNum.fin (Real.pi / 2)) =
      JSNum.fin (0 - Real.pi / 2) := rfl
  have hdivq : JSNum.div (JSNum.fin ((0 : ℝ) - Real.pi / 2))
      (JSNum.fin (2 * Real.pi)) = JSNum.fin (-(1 / 4)) := by
    have hval : ((0 : ℝ) - Real.pi / 2) / (2 * Real.pi) = -(1 / 4) := by
      field_simp
      ring
    simp only [JSNum.div, if_neg h2pi, hval]
  have hround : JSNum.round (JSNum.fin (-(1 / 4 : ℝ))) = JSNum.fin 0 := by
    have hfl : (⌊(-(1 / 4 : ℝ)) + 1 / 2⌋ : ℤ) = 0 := by
      rw [show (-(1 / 4 : ℝ)) + 1 / 2 = 1 / 4 from by norm_num,
        Int.floor_eq_zero_iff]
      constructor <;> norm_num
    show JSNum.fin ((⌊(-(1 / 4 : ℝ)) + 1 / 2⌋ : ℤ) : ℝ) = JSNum.fin 0
    rw [hfl]
    norm_num
  have hmul1 : JSNum.mul (JSNum.fin (2 * Real.pi)) (JSNum.fin 0) =
      JSNum.fin 0 := by
    show JSNum.fin (2 * Real.pi * 0) = _
    rw [mul_zero]
  have haddp : JSNum.add (JSNum.fin (Real.pi / 2)) (JSNum.fin 0) =
      JSNum.fin (Real.pi / 2) := by
    show JSNum.fin (Real.pi / 2 + 0) = _
    rw [add_zero]
  have hunwrap : jsUnwrapped (JSNum.fin 0) (JSNum.fin 0)
      (JSNum.fin (1 / 2)) = JSNum.fin (Real.pi / 2) := by
    rw [jsUnwrapped, hphase, htwoPi, hsub1, hdivq, hround, hmul1, haddp]
  have hfreq : jsInstantFreq (JSNum.fin 0) (JSNum.fin 0) (JSNum.fin 0)
      (JSNum.fin (1 / 2)) = JSNum.posInf := by
    rw [jsInstantFreq, hunwrap]
    rw [show JSNum.sub (JSNum.fin (Real.pi / 2)) (JSNum.fin 0) =
      JSNum.fin (Real.pi / 2 - 0) from rfl, sub_zero]
    simp only [JSNum.div, if_pos rfl, if_neg Real.pi_div_two_pos.ne',
      if_pos Real.pi_div_two_pos, if_true]
  refine ⟨hfreq, ?_⟩
  rw [jsOutputSample, hfreq]
  have hm1 : JSNum.mul JSNum.posInf (JSNum.fin 0) = JSNum.nan := by
    simp only [JSNum.mul, if_pos rfl, if_true]
  rw [hm1]
  rfl

/-- Claim C10: each sample the per-sample loop emits equals the cosine
of the updated cumulative synthesis phase `sumPhase`; hence every
engine output sample lies in [-1, 1], and the encoder's clamp
`max (-1) (min 1 ·)` leaves engine-produced samples unchanged. -/
theorem stretch_sample_cos_clamp_invariant :
    (∀ (omega rate : ℝ) (st : PVState) (x : ℝ),
        (processSample omega rate st x).2 =
          Real.cos ((processSample omega rate st x).1.sumPhase)) ∧
      ∀ (pcm : PcmBuffer) (rate : ℚ) (c i : ℕ),
        clamp1 (((stretch pcm rate).channels.getD c []).getD i 0) =
          ((stretch pcm rate).channels.getD c []).getD i 0 := by
  constructor
  · intro omega rate st x
    rfl
  · intro pcm rate c i
    obtain ⟨h1, h2⟩ := stretch_sample_bounds pcm rate c i
    rw [clamp1, min_eq_right h2, max_eq_right h1]

/-! ## Claim C7 -/

/-- Claim C7 is a code bug: `handleDownload` performs no rate
validation and defines no `InvalidParameter` error, so at rate 0 and
rate -1 nothing is signaled before processing — the file has already
been read and decoded when line 77 evaluates.  Under JavaScript number
semantics that line computes `Math.ceil(length / 0) = Infinity` at
rate 0 and `Math.ceil(length / -1) = -length` at rate -1 (here for a
one-frame buffer): not valid context lengths, which the repository
hands unchecked to the external `OfflineAudioContext` constructor. -/
theorem jsContextLength_nonpositive_rate :
    jsContextLength 1 (JSNum.fin 0) = JSNum.posInf ∧
      jsContextLength 1 (JSNum.fin (-1)) = JSNum.fin (-1) := by
  constructor
  · rw [jsContextLength]
    have h1 : JSNum.div (JSNum.fin ((1 : ℕ) : ℝ)) (JSNum.fin 0) =
        JSNum.posInf := by
      simp only [JSNum.div, if_pos rfl,
        if_neg (by norm_num : ¬((1 : ℕ) : ℝ) = 0),
        if_pos (by norm_num : (0 : ℝ) < ((1 : ℕ) : ℝ)), if_true]
    rw [h1]
    rfl
  · rw [jsContextLength]
    have h1 : JSNum.div (JSNum.fin ((1 : ℕ) : ℝ)) (JSNum.fin (-1)) =
        JSNum.fin (((1 : ℕ) : ℝ) / (-1)) := by
      simp only [JSNum.div, if_neg (by norm_num : ¬(-1 : ℝ) = 0)]
    rw [h1, show ((1 : ℕ) : ℝ) / (-1) = -1 from by norm_num]
    show JSNum.fin ((⌈(-1 : ℝ)⌉ : ℤ) : ℝ) = JSNum.fin (-1)
    rw [show ((-1 : ℝ)) = (((-1 : ℤ) : ℝ)) from by norm_num, Int.ceil_intCast]

/-! ## Encoder helper lemmas -/

theorem foldl_append_flatMap {α β : Type} (f : α → List β) (l : List α)
    (init : List β) :
    l.foldl (fun acc x => acc ++ f x) init = init ++ l.flatMap f := by
  induction l generalizing init with
  | nil => simp
  | cons x xs ih => simp [ih, List.append_assoc]

/-- The imperative nested write loops of `encodeWAV`, re-expressed as
the flat interleaved byte list: frame-major, channel order inside each
frame, two bytes per sample. -/
theorem wavData_eq_flatMap (buf : PcmBuffer) :
    wavData buf = (List.range buf.length).flatMap fun i =>
      (List.range buf.channels.length).flatMap fun channel =>
        int16le (floatTo16 ((buf.channels.getD channel []).getD i 0)) := by
  rw [wavData]
  have h1 : ∀ (init : List ℕ) (i : ℕ),
      (List.range buf.channels.length).foldl (fun acc2 channel =>
        acc2 ++ int16le (floatTo16 ((buf.channels.getD channel []).getD i 0)))
        init =
      init ++ (List.range buf.channels.length).flatMap fun channel =>
        int16le (floatTo16 ((buf.channels.getD channel []).getD i 0)) :=
    fun init i => foldl_append_flatMap _ _ init
  simp only [h1]
  rw [foldl_append_flatMap]
  simp

theorem int16le_length (v : ℤ) : (int16le v).length = 2 := rfl

theorem flatMap_const_length {α β : Type} (f : α → List β) (k : ℕ)
    (l : List α) (hf : ∀ x ∈ l, (f x).length = k) :
    (l.flatMap f).length = l.length * k := by
  induction l with
  | nil => simp
  | cons x xs ih =>
    have hx := hf x (by simp)
    have hxs := ih fun y hy => hf y (by simp [hy])
    simp only [List.flatMap_cons, List.length_append, hx, hxs,
      List.length_cons]
    ring

theorem wavHeader_length (numChannels sampleRate len : ℕ) :
    (wavHeader numChannels sampleRate len).length = 44 := by
  simp [wavHeader, u16le, u32le]

theorem wavData_length (buf : PcmBuffer) :
    (wavData buf).length = buf.length * (buf.channels.length * 2) := by
  rw [wavData_eq_flatMap]
  rw [flatMap_const_length _ (buf.channels.length * 2)]
  · simp
  · intro i _
    rw [flatMap_const_length _ 2]
    · simp
    · intro ch _
      exact int16le_length _

/-! ## Claim C8 -/

/-- Counterexample to claim C8: `encodeWAV` performs no input
validation and defines no `InvalidInput` error — on a buffer with zero
channels it succeeds and returns the 44-byte header-only stream rather
than failing. -/
theorem encodeWAV_zero_channels_succeeds :
    (encodeWAV ⟨[], 8000, 0⟩).length = 44 := by
  rw [encodeWAV, List.length_append, wavHeader_length, wavData_length]
  rfl

/-- Claim C8 (amended): `encodeWAV` is a total function on every
buffer, zero-channel buffers included; it never signals an error, and
always produces `44 + frameCount * numChannels * 2` bytes (a 44-byte
header-only stream when there are zero channels). -/
theorem encodeWAV_total_length (buf : PcmBuffer) :
    (encodeWAV buf).length = 44 + buf.length * (buf.channels.length * 2) := by
  rw [encodeWAV, List.length_append, wavHeader_length, wavData_length]

/-! ## Claim C3 -/

/-- Claim C3: the header `encodeWAV` emits carries, at its fixed
little-endian offsets, ChunkSize `36 + dataSize` (offset 4), the channel
count (22), the sample rate (24), ByteRate `SampleRate * NumChannels * 2`
(28), BlockAlign `NumChannels * 2` (32), BitsPerSample 16 (34), and
Subchunk2Size `dataSize = frameCount * NumChannels * 2` (40). -/
theorem encodeWAV_header_fields (buf : PcmBuffer) :
    ((encodeWAV buf).drop 4).take 4 =
        u32le (36 + buf.length * buf.channels.length * 2) ∧
      ((encodeWAV buf).drop 22).take 2 = u16le buf.channels.length ∧
      ((encodeWAV buf).drop 24).take 4 = u32le buf.sampleRate ∧
      ((encodeWAV buf).drop 28).take 4 =
        u32le (buf.sampleRate * buf.channels.length * 2) ∧
      ((encodeWAV buf).drop 32).take 2 = u16le (buf.channels.length * 2) ∧
      ((encodeWAV buf).drop 34).take 2 = u16le 16 ∧
      ((encodeWAV buf).drop 40).take 4 =
        u32le (buf.length * buf.channels.length * 2) := by
  refine ⟨?_, ?_, ?_, ?_, ?_, ?_, ?_⟩
  · rw [encodeWAV]
    simp only [wavHeader, u16le, u32le, List.cons_append, List.nil_append]
    rfl
  · rw [encodeWAV]
    simp only [wavHeader, u16le, u32le, List.cons_append, List.nil_append]
    rfl
  · rw [encodeWAV]
    simp only [wavHeader, u16le, u32le, List.cons_append, List.nil_append]
    rfl
  · rw [encodeWAV, show buf.sampleRate * buf.channels.length * 2 =
      buf.sampleRate * buf.channels.length * 16 / 8 from by omega]
    simp only [wavHeader, u16le, u32le, List.cons_append, List.nil_append]
    rfl
  · rw [encodeWAV, show buf.channels.length * 2 =
      buf.channels.length * 16 / 8 from by omega]
    simp only [wavHeader, u16le, u32le, List.cons_append, List.nil_append]
    rfl
  · rw [encodeWAV]
    simp only [wavHeader, u16le, u32le, List.cons_append, List.nil_append]
    rfl
  · rw [encodeWAV]
    simp only [wavHeader, u16le, u32le, List.cons_append, List.nil_append]
    rfl

/-! ## Claim C6 -/

/-- Claim C6: the encoded payload (the bytes after the 44-byte header)
is interleaved frame-major — for each frame index in increasing order,
one converted sample per channel in channel order, two little-endian
bytes each. -/
theorem encodeWAV_payload_interleaved (buf : PcmBuffer) :
    (encodeWAV buf).drop 44 = (List.range buf.length).flatMap fun i =>
      (List.range buf.channels.length).flatMap fun channel =>
        int16le (floatTo16 ((buf.channels.getD channel []).getD i 0)) := by
  rw [encodeWAV, List.drop_left' (wavHeader_length _ _ _), wavData_eq_flatMap]

/-! ## Claim C4 -/

/-- Helper: extracting the `k`-th fixed-size chunk of a flat map whose
pieces all have length `L`. -/
theorem flatMap_chunk_extract {β : Type} (g : ℕ → List β) (L : ℕ)
    (hg : ∀ k, (g k).length = L) :
    ∀ (n s k : ℕ), k < n →
      ((((List.range' s n).flatMap g).drop (L * k)).take L) = g (s + k) := by
  intro n
  induction n with
  | zero => intro s k hk; omega
  | succ m ih =>
    intro s k hk
    rw [List.range'_succ s m 1, List.flatMap_cons]
    cases k with
    | zero =>
      rw [Nat.mul_zero, List.drop_zero, List.take_left' (hg s), Nat.add_zero]
    | succ j =>
      have hdrop : ((g s ++ (List.range' (s + 1) m).flatMap g).drop
          (L * (j + 1))) =
          ((List.range' (s + 1) m).flatMap g).drop (L * j) := by
        rw [show L * (j + 1) = L + L * j from by ring, ← List.drop_drop,
          List.drop_left' (hg s)]
      rw [hdrop, ih (s + 1) j (by omega), show s + 1 + j = s + (j + 1) from
        by omega]

/-- Claim C4: the two payload bytes of frame `i`, channel `channel`
(at byte offset `44 + 2 * (i * numChannels + channel)` of the encoded
stream) are the little-endian 16-bit two's-complement store of the
sample clamped to [-1, 1], scaled by 32768 when negative and by 32767
otherwise, truncated toward zero. -/
theorem encodeWAV_sample_conversion (buf : PcmBuffer) (i channel : ℕ)
    (hi : i < buf.length) (hch : channel < buf.channels.length) :
    ((encodeWAV buf).drop
        (44 + 2 * (i * buf.channels.length + channel))).take 2 =
      int16le (jsTrunc
        (if clamp1 ((buf.channels.getD channel []).getD i 0) < 0 then
          clamp1 ((buf.channels.getD channel []).getD i 0) * 32768
        else clamp1 ((buf.channels.getD channel []).getD i 0) * 32767)) := by
  have hdrop44 : (encodeWAV buf).drop
      (44 + 2 * (i * buf.channels.length + channel)) =
      (wavData buf).drop (2 * (i * buf.channels.length + channel)) := by
    rw [encodeWAV, ← List.drop_drop, List.drop_left' (wavHeader_length _ _ _)]
  rw [hdrop44, wavData_eq_flatMap]
  set F : ℕ → List ℕ := fun j =>
    (List.range buf.channels.length).flatMap fun ch =>
      int16le (floatTo16 ((buf.channels.getD ch []).getD j 0)) with hF
  set g : ℕ → ℕ → List ℕ := fun j ch =>
    int16le (floatTo16 ((buf.channels.getD ch []).getD j 0)) with hg
  have hFlen : ∀ j, (F j).length = buf.channels.length * 2 := by
    intro j
    rw [hF]
    rw [flatMap_const_length _ 2 _ fun ch _ => int16le_length _]
    simp
  have hframe : (((List.range buf.length).flatMap F).drop
      (buf.channels.length * 2 * i)).take (buf.channels.length * 2) = F i := by
    rw [List.range_eq_range']
    have := flatMap_chunk_extract F (buf.channels.length * 2) hFlen
      buf.length 0 i hi
    simpa using this
  have hsample : ((F i).drop (2 * channel)).take 2 = g i channel := by
    rw [hF, List.range_eq_range']
    have := flatMap_chunk_extract (fun ch => g i ch) 2
      (fun ch => int16le_length _) buf.channels.length 0 channel hch
    simpa [hg] using this
  have hmin : min 2 (buf.channels.length * 2 - 2 * channel) = 2 := by omega
  have hcompose : (((List.range buf.length).flatMap F).drop
      (2 * (i * buf.channels.length + channel))).take 2 = g i channel := by
    rw [← hsample, ← hframe]
    rw [List.drop_take, List.take_take, hmin, List.drop_drop,
      show buf.channels.length * 2 * i + 2 * channel =
        2 * (i * buf.channels.length + channel) from by ring]
  rw [hcompose, hg]
  rfl

/-- Witness for C4 at a concrete input: a one-channel, one-frame buffer
holding the sample 0.5; its payload bytes are the conversion of 0.5. -/
theorem encodeWAV_sample_conversion_witness :
    0 < (PcmBuffer.mk [[(1 : ℝ) / 2]] 8000 1).length ∧
      ((encodeWAV ⟨[[(1 : ℝ) / 2]], 8000, 1⟩).drop (44 + 2 * (0 * 1 + 0))).take 2 =
        int16le (jsTrunc
          (if clamp1 ((((PcmBuffer.mk [[(1 : ℝ) / 2]] 8000 1).channels.getD 0
              []).getD 0 0)) < 0 then
            clamp1 ((((PcmBuffer.mk [[(1 : ℝ) / 2]] 8000 1).channels.getD 0
              []).getD 0 0)) * 32768
          else
            clamp1 ((((PcmBuffer.mk [[(1 : ℝ) / 2]] 8000 1).channels.getD 0
              []).getD 0 0)) * 32767)) := by
  refine ⟨by norm_num, ?_⟩
  have := encodeWAV_sample_conversion ⟨[[(1 : ℝ) / 2]], 8000, 1⟩ 0 0
    (by norm_num) (by norm_num)
  simpa using this

/-! ## Claim C5 -/

/-- Modelled from the spec: the repository contains no decoder, so the
reconversion of an encoded 16-bit sample back to float (§8's round-trip
property) is taken as the inverse of the encoder's asymmetric scaling —
negative stored values divide by 32768, non-negative ones by 32767. -/
noncomputable def decode16 (v : ℤ) : ℝ :=
  if v < 0 then (v : ℝ) / 32768 else (v : ℝ) / 32767

/-- Claim C5: reconverting the 16-bit integer `encodeWAV` produces for
a float sample `s` back to float lands within one quantization step
(at most `1 / 32767`) of the clamped sample `clamp1 s`. -/
theorem decode_roundtrip_bound (s : ℝ) :
    |decode16 (floatTo16 s) - clamp1 s| ≤ 1 / 32767 := by
  have hstep : (1 : ℝ) / 32768 ≤ 1 / 32767 := by norm_num
  by_cases hneg : clamp1 s < 0
  · have hx : clamp1 s * 32768 < 0 := mul_neg_of_neg_of_pos hneg (by norm_num)
    have hv : floatTo16 s = ⌈clamp1 s * 32768⌉ := by
      rw [floatTo16, if_pos hneg, jsTrunc, if_pos hx]
    have h1 : (clamp1 s * 32768 : ℝ) ≤ ⌈clamp1 s * 32768⌉ := Int.le_ceil _
    have h2 : ((⌈clamp1 s * 32768⌉ : ℤ) : ℝ) < clamp1 s * 32768 + 1 :=
      Int.ceil_lt_add_one _
    by_cases hv0 : (⌈clamp1 s * 32768⌉ : ℤ) < 0
    · have hdec : decode16 (floatTo16 s) =
          ((⌈clamp1 s * 32768⌉ : ℤ) : ℝ) / 32768 := by
        rw [hv, decode16, if_pos hv0]
      rw [hdec, abs_le]
      constructor
      · have hlow : clamp1 s ≤ ((⌈clamp1 s * 32768⌉ : ℤ) : ℝ) / 32768 := by
          rw [le_div_iff₀ (by norm_num : (0 : ℝ) < 32768)]
          linarith
        linarith
      · have hhigh : ((⌈clamp1 s * 32768⌉ : ℤ) : ℝ) / 32768 <
            clamp1 s + 1 / 32768 := by
          rw [div_lt_iff₀ (by norm_num : (0 : ℝ) < 32768)]
          linarith
        linarith
    · have hle : (⌈clamp1 s * 32768⌉ : ℤ) ≤ 0 :=
        Int.ceil_le.mpr (by exact_mod_cast le_of_lt hx)
      have hz : (⌈clamp1 s * 32768⌉ : ℤ) = 0 := by omega
      have hdec : decode16 (floatTo16 s) = 0 := by
        rw [hv, hz, decode16]
        norm_num
      rw [hz] at h2
      push_cast at h2
      rw [hdec, zero_sub, abs_neg, abs_of_neg hneg]
      linarith
  · have h0 : (0 : ℝ) ≤ clamp1 s := not_lt.mp hneg
    have hx : ¬clamp1 s * 32767 < 0 := not_lt.mpr (by positivity)
    have hv : floatTo16 s = ⌊clamp1 s * 32767⌋ := by
      rw [floatTo16, if_neg hneg, jsTrunc, if_neg hx]
    have hvnn : ¬(⌊clamp1 s * 32767⌋ : ℤ) < 0 :=
      not_lt.mpr (Int.floor_nonneg.mpr (by positivity))
    have hdec : decode16 (floatTo16 s) =
        ((⌊clamp1 s * 32767⌋ : ℤ) : ℝ) / 32767 := by
      rw [hv, decode16, if_neg hvnn]
    have h1 : ((⌊clamp1 s * 32767⌋ : ℤ) : ℝ) ≤ clamp1 s * 32767 :=
      Int.floor_le _
    have h2 : clamp1 s * 32767 - 1 < ((⌊clamp1 s * 32767⌋ : ℤ) : ℝ) :=
      Int.sub_one_lt_floor _
    rw [hdec, abs_le]
    constructor
    · have hlow : clamp1 s - 1 / 32767 ≤
          ((⌊clamp1 s * 32767⌋ : ℤ) : ℝ) / 32767 := by
        rw [le_div_iff₀ (by norm_num : (0 : ℝ) < 32767)]
        linarith
      linarith
    · have hhigh : ((⌊clamp1 s * 32767⌋ : ℤ) : ℝ) / 32767 ≤ clamp1 s := by
        rw [div_le_iff₀ (by norm_num : (0 : ℝ) < 32767)]
        linarith
      linarith

end AudioSpeed
